import Mathlib

/-!
Verification of the chunking/transcription-orchestration subsystem of
`transcribe.py` (functions `_split_and_transcribe_audio` and
`transcribe_audio_manager`).

The Python code is shallowly embedded: Python float arithmetic on the
configuration constants is modelled exactly over `ℚ` (for the concrete
constants of this program the float results coincide with the exact
rational results), `int(...)` truncation is `pyInt`, and the effectful
orchestration is modelled as a function from an abstract environment
(load success, audio length, per-chunk export success / on-disk size /
transcription result, and a flag for an unexpected exception at the
`os.path.getsize` call) to a trace of file-system events plus an outcome.
-/

namespace YT

/-- `WHISPER_API_FILE_SIZE_LIMIT = 25 * 1024 * 1024` (transcribe.py line 17). -/
def WHISPER_API_FILE_SIZE_LIMIT : ℕ := 25 * 1024 * 1024

/-- `SAFE_CHUNK_SIZE_BYTES = 24 * 1024 * 1024` (transcribe.py line 18). -/
def SAFE_CHUNK_SIZE_BYTES : ℕ := 24 * 1024 * 1024

/-- `MP3_BITRATE_KBPS = 192` (transcribe.py line 20). -/
def MP3_BITRATE_KBPS : ℕ := 192

/-- Python `int(q)`: truncation toward zero. -/
def pyInt (q : ℚ) : ℤ := if 0 ≤ q then ⌊q⌋ else ⌈q⌉

/-- `bytes_per_second_audio = (MP3_BITRATE_KBPS * 1000) / 8.0`
(transcribe.py line 147), parameterised by the bitrate constant. -/
def bytesPerSecond (bitrate : ℚ) : ℚ := bitrate * 1000 / 8

/-- Lines 153-154:
`max_duration_seconds_per_chunk = (SAFE_CHUNK_SIZE_BYTES / bytes_per_second_audio) * 0.95`,
`chunk_length_ms = int(max_duration_seconds_per_chunk * 1000)`;
the literal `0.95` is written `1 - margin`, instantiated with `margin = 1/20`. -/
def chunkLengthMs (budget bitrate margin : ℚ) : ℤ :=
  pyInt (budget / bytesPerSecond bitrate * (1 - margin) * 1000)

/-- Modelled from the spec: the ChunkPlanner duration formula as §4.2 words it —
`bytes_per_second = bitrate * 1000 / 8`, then the whole-millisecond truncation of
`(byte_budget / bytes_per_second) * (1 - margin) * 1000`.  Compared against the
code-side `chunkLengthMs`. -/
def specChunkLengthMs (budget bitrate margin : ℚ) : ℤ :=
  pyInt (budget / (bitrate * 1000 / 8) * (1 - margin) * 1000)

/-- The planner stage of `_split_and_transcribe_audio` (lines 147-159):
`none` is the PlanError path (`return None` at 151 or 159), `some ms` means
the run continues with `chunk_length_ms = ms`. -/
def chunkPlanner (budget bitrate margin : ℚ) : Option ℤ :=
  if bytesPerSecond bitrate ≤ 0 then none
  else
    let ms := chunkLengthMs budget bitrate margin
    if ms ≤ 1000 then none else some ms

/-- Routing outcome of `transcribe_audio_manager` (lines 199-212). -/
inductive Route where
  | noKey
  | noFile
  | direct
  | split
  deriving DecidableEq, Repr

/-- `transcribe_audio_manager`'s guard and size decision (lines 201-212):
missing key and missing file short-circuit; otherwise
`file_size < WHISPER_API_FILE_SIZE_LIMIT * 0.98` picks the direct path.
(`25 * 1024 * 1024 * 0.98` is exactly representable as a double, so the
rational model is exact.) -/
def decideRoute (hasKey : Bool) (fileExists : Bool) (size : ℕ) : Route :=
  if hasKey = false then .noKey
  else if fileExists = false then .noFile
  else if (size : ℚ) < (WHISPER_API_FILE_SIZE_LIMIT : ℚ) * (98 / 100) then .direct
  else .split

/-- File-system events of one `_split_and_transcribe_audio` run:
`mkDir` = `os.makedirs(chunks_subfolder)` (line 137),
`export i` = successful `audio_segment_chunk.export` of chunk `i` (line 171),
`transcribe i` = the transcription call on chunk `i` resolving (line 182),
`removeChunk i` = `os.remove(chunk_filename)` (line 178 or 183),
`removeDir` = `shutil.rmtree(chunks_subfolder)` (lines 144/150/158/192). -/
inductive Ev where
  | mkDir
  | export (i : ℕ)
  | transcribe (i : ℕ)
  | removeChunk (i : ℕ)
  | removeDir
  deriving DecidableEq, Repr

/-- Result of the run: `val r` models `return r` (with `r : Option String`,
Python `None` being `none`); `exn` models an uncaught exception propagating
out of the function. -/
inductive Outcome where
  | val (r : Option String)
  | exn
  deriving DecidableEq, Repr

/-- Abstract environment of one run: everything the outside world decides.
`loadOk` is `AudioSegment.from_mp3` succeeding (line 141); `audioLenMs` is
`len(audio)` in milliseconds, which `make_chunks` partitions; `exportOk i`
is chunk `i`'s export call succeeding (line 171); `sizeRaises i` models an
unexpected (uncaught) exception from `os.path.getsize(chunk_filename)`
(line 176); `chunkSize i` is the exported chunk's on-disk byte size;
`transcript i` is `_transcribe_single_audio_file`'s return for chunk `i`
(`none` = its failure marker, line 130). -/
structure Env where
  loadOk : Bool
  audioLenMs : ℕ
  exportOk : ℕ → Bool
  sizeRaises : ℕ → Bool
  chunkSize : ℕ → ℕ
  transcript : ℕ → Option String

/-- The module-level configuration constants threaded through the run. -/
structure Config where
  hardLimit : ℕ
  budget : ℚ
  bitrate : ℚ
  margin : ℚ

/-- The constants of transcribe.py lines 17-20 (margin `1/20` is the `0.95`
literal on line 153). -/
def defaultCfg : Config :=
  { hardLimit := WHISPER_API_FILE_SIZE_LIMIT
    budget := (SAFE_CHUNK_SIZE_BYTES : ℚ)
    bitrate := (MP3_BITRATE_KBPS : ℚ)
    margin := 1 / 20 }

/-- `len(make_chunks(audio, chunk_length_ms))`: pydub's `make_chunks`
produces `audio[i:i+n]` for `i in range(0, len(audio), n)`, i.e.
`⌈len / n⌉` chunks (zero chunks for zero-length audio). -/
def makeChunksCount (lenMs chunkMs : ℕ) : ℕ := (lenMs + chunkMs - 1) / chunkMs

/-- The `for i, audio_segment_chunk in enumerate(audio_chunks)` loop
(lines 167-189), processing `n` remaining chunks starting at index `i` with
`parts = full_transcription_parts` collected so far.  Returns the emitted
event trace, the collected parts, `all_chunks_processed_successfully`, and
whether an uncaught exception was raised. -/
def chunkLoop (env : Env) (limit : ℕ) :
    ℕ → ℕ → List String → List Ev × List String × Bool × Bool
  | 0, _, parts => ([], parts, true, false)
  | n + 1, i, parts =>
    if env.exportOk i = false then
      ([], parts, false, false)
    else if env.sizeRaises i = true then
      ([.export i], parts, false, true)
    else if limit ≤ env.chunkSize i then
      ([.export i, .removeChunk i], parts, false, false)
    else
      match env.transcript i with
      | none => ([.export i, .transcribe i, .removeChunk i], parts, false, false)
      | some s =>
        let r := chunkLoop env limit n (i + 1) (parts ++ [s])
        (.export i :: .transcribe i :: .removeChunk i :: r.1, r.2.1, r.2.2.1, r.2.2.2)

/-- `_split_and_transcribe_audio` (lines 132-197) as a trace/outcome
function over the environment.  The `exn` branch models an uncaught
exception escaping before the line-191 cleanup is reached. -/
def splitAndTranscribe (cfg : Config) (env : Env) : List Ev × Outcome :=
  if env.loadOk = false then ([.mkDir, .removeDir], .val none)
  else
    match chunkPlanner cfg.budget cfg.bitrate cfg.margin with
    | none => ([.mkDir, .removeDir], .val none)
    | some ms =>
      let r := chunkLoop env cfg.hardLimit (makeChunksCount env.audioLenMs ms.toNat) 0 []
      if r.2.2.2 = true then (.mkDir :: r.1, .exn)
      else
        let trace := .mkDir :: r.1 ++ [.removeDir]
        if r.2.2.1 = false then (trace, .val none)
        else (trace, .val (if r.2.1.isEmpty then none else some (String.intercalate " " r.2.1)))

/-- Number of chunks the run at `cfg` submits to the loop (0 when the
planner rejects). -/
def cfgNumChunks (cfg : Config) (env : Env) : ℕ :=
  match chunkPlanner cfg.budget cfg.bitrate cfg.margin with
  | none => 0
  | some ms => makeChunksCount env.audioLenMs ms.toNat

/-! ### Concrete environments for witnesses -/

/-- A run whose audio splits into two chunks, both transcribing
successfully with texts "Hello" and "world". -/
def envW : Env :=
  { loadOk := true
    audioLenMs := 1000000
    exportOk := fun _ => true
    sizeRaises := fun _ => false
    chunkSize := fun _ => 1000
    transcript := fun i => if i = 0 then some "Hello" else some "world" }

/-- A run whose second chunk's transcription call fails. -/
def envF : Env :=
  { loadOk := true
    audioLenMs := 1500000
    exportOk := fun _ => true
    sizeRaises := fun _ => false
    chunkSize := fun _ => 1000
    transcript := fun i => if i = 0 then some "Hello" else none }

/-- A run whose second exported chunk is at the hard limit. -/
def envV : Env :=
  { loadOk := true
    audioLenMs := 1500000
    exportOk := fun _ => true
    sizeRaises := fun _ => false
    chunkSize := fun i => if i = 0 then 1000 else 25 * 1024 * 1024
    transcript := fun _ => some "text" }

/-- A run over a zero-length (empty) audio asset: `make_chunks` yields no
chunks. -/
def envZero : Env :=
  { loadOk := true
    audioLenMs := 0
    exportOk := fun _ => true
    sizeRaises := fun _ => false
    chunkSize := fun _ => 1000
    transcript := fun _ => some "text" }

/-- A run where the `os.path.getsize` call on the first chunk raises an
unexpected exception. -/
def envRaise : Env :=
  { loadOk := true
    audioLenMs := 1000000
    exportOk := fun _ => true
    sizeRaises := fun _ => true
    chunkSize := fun _ => 1000
    transcript := fun _ => some "text" }

/-- The program's configuration with the bitrate constant set to zero, so
that bytes-per-second is non-positive and the planner must reject. -/
def zeroBitrateCfg : Config :=
  { hardLimit := WHISPER_API_FILE_SIZE_LIMIT
    budget := (SAFE_CHUNK_SIZE_BYTES : ℚ)
    bitrate := 0
    margin := 1 / 20 }

/-! ### Helper lemmas -/

/-- With the constants of transcribe.py, the planner accepts and yields a
chunk length of 996147 ms (`int(((24*1024*1024)/24000.0)*0.95*1000)`). -/
theorem planner_defaults :
    chunkPlanner (SAFE_CHUNK_SIZE_BYTES : ℚ) (MP3_BITRATE_KBPS : ℚ) (1 / 20) = some 996147 := by
  norm_num [chunkPlanner, chunkLengthMs, bytesPerSecond, pyInt,
    SAFE_CHUNK_SIZE_BYTES, MP3_BITRATE_KBPS]

/-- Loop step, export failure at `i` (break at line 174). -/
theorem chunkLoop_step_exportFail (env : Env) (limit n i : ℕ) (parts : List String)
    (he : env.exportOk i = false) :
    chunkLoop env limit (n + 1) i parts = ([], parts, false, false) := by
  simp [chunkLoop, he]

/-- Loop step, unexpected exception at the `os.path.getsize` call of chunk `i`. -/
theorem chunkLoop_step_raise (env : Env) (limit n i : ℕ) (parts : List String)
    (he : env.exportOk i = true) (hr : env.sizeRaises i = true) :
    chunkLoop env limit (n + 1) i parts = ([.export i], parts, false, true) := by
  simp [chunkLoop, he, hr]

/-- Loop step, size violation at `i` (lines 176-180). -/
theorem chunkLoop_step_sizeViol (env : Env) (limit n i : ℕ) (parts : List String)
    (he : env.exportOk i = true) (hr : env.sizeRaises i = false)
    (hs : limit ≤ env.chunkSize i) :
    chunkLoop env limit (n + 1) i parts =
      ([.export i, .removeChunk i], parts, false, false) := by
  simp [chunkLoop, he, hr, hs]

/-- Loop step, transcription failure at `i` (lines 186-188). -/
theorem chunkLoop_step_transFail (env : Env) (limit n i : ℕ) (parts : List String)
    (he : env.exportOk i = true) (hr : env.sizeRaises i = false)
    (hs : env.chunkSize i < limit) (ht : env.transcript i = none) :
    chunkLoop env limit (n + 1) i parts =
      ([.export i, .transcribe i, .removeChunk i], parts, false, false) := by
  simp [chunkLoop, he, hr, Nat.not_le_of_lt hs, ht]

/-- Loop step, chunk `i` fully processed (line 189): recurse. -/
theorem chunkLoop_step_ok (env : Env) (limit n i : ℕ) (parts : List String) (s : String)
    (he : env.exportOk i = true) (hr : env.sizeRaises i = false)
    (hs : env.chunkSize i < limit) (ht : env.transcript i = some s) :
    chunkLoop env limit (n + 1) i parts =
      (.export i :: .transcribe i :: .removeChunk i ::
          (chunkLoop env limit n (i + 1) (parts ++ [s])).1,
       (chunkLoop env limit n (i + 1) (parts ++ [s])).2) := by
  simp [chunkLoop, he, hr, Nat.not_le_of_lt hs, ht]

/-- If no step raises an unexpected exception, the loop never reports one. -/
theorem chunkLoop_not_raised (env : Env) (limit : ℕ)
    (h : ∀ i, env.sizeRaises i = false) :
    ∀ n i parts, (chunkLoop env limit n i parts).2.2.2 = false := by
  intro n
  induction n with
  | zero => intro i parts; rfl
  | succ n ih =>
    intro i parts
    rcases he : env.exportOk i with _ | _
    · rw [chunkLoop_step_exportFail env limit n i parts he]
    · by_cases hs : limit ≤ env.chunkSize i
      · rw [chunkLoop_step_sizeViol env limit n i parts he (h i) hs]
      · rcases ht : env.transcript i with _ | s
        · rw [chunkLoop_step_transFail env limit n i parts he (h i) (Nat.lt_of_not_le hs) ht]
        · rw [chunkLoop_step_ok env limit n i parts s he (h i) (Nat.lt_of_not_le hs) ht]
          exact ih (i + 1) (parts ++ [s])

/-- Every `export`/`transcribe`/`removeChunk` event the loop emits, starting
at index `i`, carries an index `≥ i`. -/
theorem chunkLoop_idx_ge (env : Env) (limit : ℕ) :
    ∀ n i parts j,
      (Ev.export j ∈ (chunkLoop env limit n i parts).1 ∨
       Ev.transcribe j ∈ (chunkLoop env limit n i parts).1 ∨
       Ev.removeChunk j ∈ (chunkLoop env limit n i parts).1) → i ≤ j := by
  intro n
  induction n with
  | zero => intro i parts j hj; simp [chunkLoop] at hj
  | succ n ih =>
    intro i parts j hj
    rcases he : env.exportOk i with _ | _
    · rw [chunkLoop_step_exportFail env limit n i parts he] at hj
      simp at hj
    · rcases hr : env.sizeRaises i with _ | _
      · by_cases hs : limit ≤ env.chunkSize i
        · rw [chunkLoop_step_sizeViol env limit n i parts he hr hs] at hj
          simp at hj
          omega
        · rcases ht : env.transcript i with _ | s
          · rw [chunkLoop_step_transFail env limit n i parts he hr
              (Nat.lt_of_not_le hs) ht] at hj
            simp at hj
            omega
          · rw [chunkLoop_step_ok env limit n i parts s he hr
              (Nat.lt_of_not_le hs) ht] at hj
            simp only [List.mem_cons] at hj
            rcases hj with (h1 | h1 | h1 | h1) | (h1 | h1 | h1 | h1) | (h1 | h1 | h1 | h1)
            all_goals try (cases h1; omega)
            all_goals have h9 := ih (i + 1) (parts ++ [s]) j (by tauto)
            all_goals omega
      · rw [chunkLoop_step_raise env limit n i parts he hr] at hj
        simp at hj
        omega

/-- When every chunk in the window succeeds, the loop collects all their
transcripts in index order and reports success. -/
theorem chunkLoop_all_ok (env : Env) (limit : ℕ) (f : ℕ → String) :
    ∀ n i parts,
      (∀ j, i ≤ j → j < i + n → env.exportOk j = true ∧ env.sizeRaises j = false ∧
        env.chunkSize j < limit ∧ env.transcript j = some (f j)) →
      (chunkLoop env limit n i parts).2 =
        (parts ++ (List.range' i n).map f, true, false) := by
  intro n
  induction n with
  | zero => intro i parts h; simp [chunkLoop]
  | succ n ih =>
    intro i parts h
    obtain ⟨he, hr, hs, ht⟩ := h i (le_refl i) (by omega)
    rw [chunkLoop_step_ok env limit n i parts (f i) he hr hs ht]
    rw [ih (i + 1) (parts ++ [f i]) (fun j h1 h2 => h j (by omega) (by omega))]
    simp [List.range'_succ]

/-- Fail-fast: if chunks before `k` succeed and chunk `k`'s transcription
call returns the failure marker, the loop fails without raising and emits
no `export`/`transcribe` event with index above `k`. -/
theorem chunkLoop_fail_fast (env : Env) (limit k : ℕ)
    (hek : env.exportOk k = true) (hrk : env.sizeRaises k = false)
    (hsk : env.chunkSize k < limit) (htk : env.transcript k = none) :
    ∀ n i parts, i ≤ k → k < i + n →
      (∀ j, i ≤ j → j < k → env.exportOk j = true ∧ env.sizeRaises j = false ∧
        env.chunkSize j < limit ∧ (env.transcript j).isSome = true) →
      (chunkLoop env limit n i parts).2.2 = (false, false) ∧
      ∀ j, k < j → Ev.export j ∉ (chunkLoop env limit n i parts).1 ∧
        Ev.transcribe j ∉ (chunkLoop env limit n i parts).1 := by
  intro n
  induction n with
  | zero => intro i parts h1 h2 h3; omega
  | succ n ih =>
    intro i parts h1 h2 h3
    rcases Nat.eq_or_lt_of_le h1 with rfl | hik
    · rw [chunkLoop_step_transFail env limit n i parts hek hrk hsk htk]
      refine ⟨rfl, fun j hj => ⟨?_, ?_⟩⟩ <;> simp <;> omega
    · obtain ⟨he, hr, hs, ht⟩ := h3 i (le_refl i) hik
      obtain ⟨s, hts⟩ := Option.isSome_iff_exists.mp ht
      rw [chunkLoop_step_ok env limit n i parts s he hr hs hts]
      obtain ⟨iha, ihb⟩ := ih (i + 1) (parts ++ [s]) (by omega) (by omega)
        (fun j ha hb => h3 j (by omega) hb)
      refine ⟨iha, fun j hj => ?_⟩
      obtain ⟨ib1, ib2⟩ := ihb j hj
      constructor <;> simp [ib1, ib2] <;> omega

/-- Size violation: if chunks before `k` succeed and chunk `k`'s exported
file is at or above the hard limit, the loop fails without raising, chunk
`k` is never transcribed, and no `export`/`transcribe` event with index
above `k` is emitted. -/
theorem chunkLoop_size_violation (env : Env) (limit k : ℕ)
    (hek : env.exportOk k = true) (hrk : env.sizeRaises k = false)
    (hsk : limit ≤ env.chunkSize k) :
    ∀ n i parts, i ≤ k → k < i + n →
      (∀ j, i ≤ j → j < k → env.exportOk j = true ∧ env.sizeRaises j = false ∧
        env.chunkSize j < limit ∧ (env.transcript j).isSome = true) →
      (chunkLoop env limit n i parts).2.2 = (false, false) ∧
      Ev.transcribe k ∉ (chunkLoop env limit n i parts).1 ∧
      ∀ j, k < j → Ev.export j ∉ (chunkLoop env limit n i parts).1 ∧
        Ev.transcribe j ∉ (chunkLoop env limit n i parts).1 := by
  intro n
  induction n with
  | zero => intro i parts h1 h2 h3; omega
  | succ n ih =>
    intro i parts h1 h2 h3
    rcases Nat.eq_or_lt_of_le h1 with rfl | hik
    · rw [chunkLoop_step_sizeViol env limit n i parts hek hrk hsk]
      refine ⟨rfl, by simp, fun j hj => ⟨?_, ?_⟩⟩ <;> simp <;> omega
    · obtain ⟨he, hr, hs, ht⟩ := h3 i (le_refl i) hik
      obtain ⟨s, hts⟩ := Option.isSome_iff_exists.mp ht
      rw [chunkLoop_step_ok env limit n i parts s he hr hs hts]
      obtain ⟨iha, ihk, ihb⟩ := ih (i + 1) (parts ++ [s]) (by omega) (by omega)
        (fun j ha hb => h3 j (by omega) hb)
      refine ⟨iha, ?_, fun j hj => ?_⟩
      · simp [ihk]; omega
      · obtain ⟨ib1, ib2⟩ := ihb j hj
        constructor <;> simp [ib1, ib2] <;> omega

/-- Whenever the loop's trace contains `transcribe a`, the very next event is
`removeChunk a`, and no event of a later chunk precedes it. -/
theorem chunkLoop_remove_immediately (env : Env) (limit : ℕ) :
    ∀ n i parts a, Ev.transcribe a ∈ (chunkLoop env limit n i parts).1 →
      ∃ p q, (chunkLoop env limit n i parts).1 =
          p ++ Ev.transcribe a :: Ev.removeChunk a :: q ∧
        ∀ j, a < j → Ev.export j ∉ p ∧ Ev.transcribe j ∉ p := by
  intro n
  induction n with
  | zero => intro i parts a ha; simp [chunkLoop] at ha
  | succ n ih =>
    intro i parts a ha
    rcases he : env.exportOk i with _ | _
    · rw [chunkLoop_step_exportFail env limit n i parts he] at ha ⊢
      simp at ha
    · rcases hr : env.sizeRaises i with _ | _
      · by_cases hs : limit ≤ env.chunkSize i
        · rw [chunkLoop_step_sizeViol env limit n i parts he hr hs] at ha ⊢
          simp at ha
        · rcases ht : env.transcript i with _ | s
          · rw [chunkLoop_step_transFail env limit n i parts he hr
              (Nat.lt_of_not_le hs) ht] at ha ⊢
            simp at ha
            subst ha
            exact ⟨[.export a], [], by simp, fun j hj => by simp; omega⟩
          · rw [chunkLoop_step_ok env limit n i parts s he hr
              (Nat.lt_of_not_le hs) ht] at ha ⊢
            simp only [List.mem_cons] at ha
            rcases ha with h1 | h1 | h1 | h1
            · exact absurd h1 (by simp)
            · have haa : a = i := by injection h1
              subst haa
              refine ⟨[Ev.export a], (chunkLoop env limit n (a + 1) (parts ++ [s])).1,
                by simp, fun j hj => ?_⟩
              constructor <;> simp <;> omega
            · exact absurd h1 (by simp)
            · have hai : i + 1 ≤ a :=
                chunkLoop_idx_ge env limit n (i + 1) (parts ++ [s]) a
                  (Or.inr (Or.inl h1))
              obtain ⟨p, q, hpq, hp⟩ := ih (i + 1) (parts ++ [s]) a h1
              refine ⟨.export i :: .transcribe i :: .removeChunk i :: p, q, by simp [hpq],
                fun j hj => ?_⟩
              obtain ⟨hp1, hp2⟩ := hp j hj
              constructor <;> simp [hp1, hp2] <;> omega
      · rw [chunkLoop_step_raise env limit n i parts he hr] at ha ⊢
        simp at ha

/-- The trace of a run has one of three shapes: the two-event early-exit
trace, the exception-truncated trace, or the full trace ending in the
scratch-directory removal. -/
theorem splitAndTranscribe_trace_cases (cfg : Config) (env : Env) :
    (splitAndTranscribe cfg env).1 = [Ev.mkDir, Ev.removeDir] ∨
    (splitAndTranscribe cfg env).1 =
      Ev.mkDir :: (chunkLoop env cfg.hardLimit (cfgNumChunks cfg env) 0 []).1 ∨
    (splitAndTranscribe cfg env).1 =
      Ev.mkDir :: ((chunkLoop env cfg.hardLimit (cfgNumChunks cfg env) 0 []).1 ++
        [Ev.removeDir]) := by
  unfold splitAndTranscribe cfgNumChunks
  rcases hl : env.loadOk with _ | _
  · left
    rfl
  · rcases hp : chunkPlanner cfg.budget cfg.bitrate cfg.margin with _ | ms
    · left
      rfl
    · rcases hr : (chunkLoop env cfg.hardLimit
          (makeChunksCount env.audioLenMs ms.toNat) 0 []).2.2.2 with _ | _
      · rcases hok : (chunkLoop env cfg.hardLimit
            (makeChunksCount env.audioLenMs ms.toNat) 0 []).2.2.1 with _ | _ <;>
          · right
            right
            simp [hr, hok]
      · right
        left
        simp [hr]

/-! ### Claim theorems -/

/-- Claim C4: the size decider chooses the direct path exactly when the
asset's byte size is strictly below 98% of the 25 MiB hard limit
(i.e. below 25690112 bytes), and the split path for every size at or above
that threshold. -/
theorem direct_split_threshold (size : ℕ) :
    (decideRoute true true size = Route.direct ↔ size < 25690112) ∧
    (decideRoute true true size = Route.split ↔ 25690112 ≤ size) ∧
    (25690112 : ℚ) = (WHISPER_API_FILE_SIZE_LIMIT : ℚ) * (98 / 100) := by
  have hq : (WHISPER_API_FILE_SIZE_LIMIT : ℚ) * (98 / 100) = ((25690112 : ℕ) : ℚ) := by
    norm_num [WHISPER_API_FILE_SIZE_LIMIT]
  have hc : ((size : ℚ) < (WHISPER_API_FILE_SIZE_LIMIT : ℚ) * (98 / 100)) ↔
      size < 25690112 := by
    rw [hq]
    exact Nat.cast_lt
  have hd : decideRoute true true size =
      if size < 25690112 then Route.direct else Route.split := by
    unfold decideRoute
    rw [if_neg (by decide), if_neg (by decide)]
    by_cases h : (size : ℚ) < (WHISPER_API_FILE_SIZE_LIMIT : ℚ) * (98 / 100)
    · rw [if_pos h, if_pos (hc.mp h)]
    · rw [if_neg h, if_neg (hc.not.mp h)]
  refine ⟨?_, ?_, by rw [hq]; norm_num⟩
  · rw [hd]
    by_cases hs : size < 25690112 <;> simp [hs] <;> omega
  · rw [hd]
    by_cases hs : size < 25690112 <;> simp [hs] <;> omega

/-- Claim C6: the planned chunk length is the whole-millisecond truncation
of `(byte_budget / bytes_per_second) * (1 - margin) * 1000` with
`bytes_per_second = bitrate * 1000 / 8` (the code's formula coincides with
the spec's); with budget 24 MiB, bitrate 192 kbps and margin 5% it is
996147 ms, and that is the chunk length `make_chunks` is invoked with. -/
theorem planned_chunk_length :
    (∀ budget bitrate margin : ℚ,
      chunkLengthMs budget bitrate margin = specChunkLengthMs budget bitrate margin) ∧
    chunkLengthMs (SAFE_CHUNK_SIZE_BYTES : ℚ) (MP3_BITRATE_KBPS : ℚ) (1 / 20) = 996147 ∧
    ∀ env : Env, cfgNumChunks defaultCfg env = makeChunksCount env.audioLenMs 996147 := by
  refine ⟨fun b r m => rfl, ?_, fun env => ?_⟩
  · norm_num [chunkLengthMs, bytesPerSecond, pyInt, SAFE_CHUNK_SIZE_BYTES, MP3_BITRATE_KBPS]
  · simp only [cfgNumChunks, defaultCfg]
    rw [planner_defaults]
    rfl

/-- Claim C5: the planner returns the PlanError failure exactly when the
bytes-per-second is non-positive or the computed duration is at or below
1000 ms; and whenever the run's planner rejects, nothing is exported or
transcribed and the run returns the absence signal. -/
theorem planner_rejects_iff (b r m : ℚ) (cfg : Config) (env : Env)
    (hrej : chunkPlanner cfg.budget cfg.bitrate cfg.margin = none) :
    (chunkPlanner b r m = none ↔
      bytesPerSecond r ≤ 0 ∨ chunkLengthMs b r m ≤ 1000) ∧
    (splitAndTranscribe cfg env).2 = Outcome.val none ∧
    ∀ i, Ev.export i ∉ (splitAndTranscribe cfg env).1 ∧
      Ev.transcribe i ∉ (splitAndTranscribe cfg env).1 := by
  refine ⟨?_, ?_⟩
  · unfold chunkPlanner
    by_cases h1 : bytesPerSecond r ≤ 0
    · simp [h1]
    · by_cases h2 : chunkLengthMs b r m ≤ 1000 <;> simp [h1, h2]
  · unfold splitAndTranscribe
    rcases hl : env.loadOk with _ | _
    · exact ⟨rfl, fun i => by simp⟩
    · rw [hrej]
      exact ⟨rfl, fun i => by simp⟩

/-- Witness for planner_rejects_iff: with the bitrate constant zeroed the
planner rejects, and the concrete run exports and transcribes nothing. -/
theorem planner_rejects_iff_witness :
    (chunkPlanner (SAFE_CHUNK_SIZE_BYTES : ℚ) (MP3_BITRATE_KBPS : ℚ) (1 / 20) = none ↔
      bytesPerSecond (MP3_BITRATE_KBPS : ℚ) ≤ 0 ∨
      chunkLengthMs (SAFE_CHUNK_SIZE_BYTES : ℚ) (MP3_BITRATE_KBPS : ℚ) (1 / 20) ≤ 1000) ∧
    (splitAndTranscribe zeroBitrateCfg envW).2 = Outcome.val none ∧
    ∀ i, Ev.export i ∉ (splitAndTranscribe zeroBitrateCfg envW).1 ∧
      Ev.transcribe i ∉ (splitAndTranscribe zeroBitrateCfg envW).1 :=
  planner_rejects_iff (SAFE_CHUNK_SIZE_BYTES : ℚ) (MP3_BITRATE_KBPS : ℚ) (1 / 20)
    zeroBitrateCfg envW
    (by norm_num [chunkPlanner, zeroBitrateCfg, bytesPerSecond])

/-- Claim C10: on the split path, when the planner accepts but `make_chunks`
yields an empty chunk sequence, the loop completes with no transcripts and
no error, and the run still returns the absence signal `none` (not an empty
transcript). -/
theorem empty_chunks_returns_none (cfg : Config) (env : Env) (ms : ℤ)
    (hload : env.loadOk = true)
    (hp : chunkPlanner cfg.budget cfg.bitrate cfg.margin = some ms)
    (hn : makeChunksCount env.audioLenMs ms.toNat = 0) :
    splitAndTranscribe cfg env = ([Ev.mkDir, Ev.removeDir], Outcome.val none) := by
  unfold splitAndTranscribe
  rw [hload, hp]
  simp [hn, chunkLoop]

/-- Witness for empty_chunks_returns_none: a concrete zero-length asset on
the split path yields `none`. -/
theorem empty_chunks_returns_none_witness :
    splitAndTranscribe defaultCfg envZero = ([Ev.mkDir, Ev.removeDir], Outcome.val none) :=
  empty_chunks_returns_none defaultCfg envZero 996147 rfl
    (by simpa [defaultCfg] using planner_defaults)
    (by decide)

/-- Claim C9: for every positive bitrate and every byte budget strictly
below the hard limit, the planned chunk duration times the bytes-per-second
of the constant-bitrate export model is strictly below the hard limit. -/
theorem planned_bytes_below_limit (bitrate budget : ℚ)
    (hb : 0 < bitrate) (hbud : budget < (WHISPER_API_FILE_SIZE_LIMIT : ℚ)) :
    (chunkLengthMs budget bitrate (1 / 20) : ℚ) / 1000 * bytesPerSecond bitrate
      < (WHISPER_API_FILE_SIZE_LIMIT : ℚ) := by
  have hbps : 0 < bytesPerSecond bitrate := by
    unfold bytesPerSecond
    positivity
  have hlim : (0 : ℚ) < (WHISPER_API_FILE_SIZE_LIMIT : ℚ) := by
    norm_num [WHISPER_API_FILE_SIZE_LIMIT]
  have hms : chunkLengthMs budget bitrate (1 / 20) =
      pyInt (budget / bytesPerSecond bitrate * (1 - 1 / 20) * 1000) := rfl
  set q : ℚ := budget / bytesPerSecond bitrate * (1 - 1 / 20) * 1000 with hqdef
  by_cases h0 : 0 ≤ q
  · have h1 : (chunkLengthMs budget bitrate (1 / 20) : ℚ) ≤ q := by
      rw [hms, pyInt, if_pos h0]
      exact_mod_cast Int.floor_le q
    have hb0 : 0 ≤ budget := by
      by_contra hneg
      push_neg at hneg
      have : q < 0 := by
        rw [hqdef]
        have : budget / bytesPerSecond bitrate < 0 := div_neg_of_neg_of_pos hneg hbps
        nlinarith
      linarith
    have h2 : q / 1000 * bytesPerSecond bitrate = budget * (19 / 20) := by
      rw [hqdef]
      field_simp
      ring
    have h3 : (chunkLengthMs budget bitrate (1 / 20) : ℚ) / 1000 * bytesPerSecond bitrate
        ≤ q / 1000 * bytesPerSecond bitrate := by
      apply mul_le_mul_of_nonneg_right _ (le_of_lt hbps)
      exact div_le_div_of_nonneg_right h1 (by norm_num) |>.trans_eq rfl
    calc (chunkLengthMs budget bitrate (1 / 20) : ℚ) / 1000 * bytesPerSecond bitrate
        ≤ q / 1000 * bytesPerSecond bitrate := h3
      _ = budget * (19 / 20) := h2
      _ < (WHISPER_API_FILE_SIZE_LIMIT : ℚ) := by nlinarith
  · push_neg at h0
    have h1 : chunkLengthMs budget bitrate (1 / 20) ≤ 0 := by
      rw [hms, pyInt, if_neg (not_le_of_lt h0)]
      exact Int.ceil_le.mpr (by push_cast; linarith)
    have h2 : (chunkLengthMs budget bitrate (1 / 20) : ℚ) ≤ 0 := by exact_mod_cast h1
    have h3 : (chunkLengthMs budget bitrate (1 / 20) : ℚ) / 1000 * bytesPerSecond bitrate ≤ 0 := by
      apply mul_nonpos_of_nonpos_of_nonneg
      · linarith [div_nonpos_of_nonpos_of_nonneg h2 (by norm_num : (0:ℚ) ≤ 1000)]
      · exact le_of_lt hbps
    linarith

/-- Witness for planned_bytes_below_limit at the program's constants:
996147 ms at 24000 bytes/s is 23907528 bytes, below the 26214400-byte
limit. -/
theorem planned_bytes_below_limit_witness :
    (0 : ℚ) < (MP3_BITRATE_KBPS : ℚ) ∧
    (SAFE_CHUNK_SIZE_BYTES : ℚ) < (WHISPER_API_FILE_SIZE_LIMIT : ℚ) ∧
    (chunkLengthMs (SAFE_CHUNK_SIZE_BYTES : ℚ) (MP3_BITRATE_KBPS : ℚ) (1 / 20) : ℚ) / 1000 *
      bytesPerSecond (MP3_BITRATE_KBPS : ℚ) < (WHISPER_API_FILE_SIZE_LIMIT : ℚ) :=
  ⟨by norm_num [MP3_BITRATE_KBPS],
   by norm_num [SAFE_CHUNK_SIZE_BYTES, WHISPER_API_FILE_SIZE_LIMIT],
   planned_bytes_below_limit (MP3_BITRATE_KBPS : ℚ) (SAFE_CHUNK_SIZE_BYTES : ℚ)
     (by norm_num [MP3_BITRATE_KBPS])
     (by norm_num [SAFE_CHUNK_SIZE_BYTES, WHISPER_API_FILE_SIZE_LIMIT])⟩

/-- Claim C3: when the split path runs and every chunk transcribes
successfully, the result is the per-chunk transcripts joined in ascending
index order with exactly one space between consecutive transcripts. -/
theorem all_success_joined (cfg : Config) (env : Env) (f : ℕ → String)
    (hload : env.loadOk = true)
    (hn : 0 < cfgNumChunks cfg env)
    (hok : ∀ j, j < cfgNumChunks cfg env →
      env.exportOk j = true ∧ env.sizeRaises j = false ∧
      env.chunkSize j < cfg.hardLimit ∧ env.transcript j = some (f j)) :
    (splitAndTranscribe cfg env).2 =
      Outcome.val (some (String.intercalate " "
        ((List.range (cfgNumChunks cfg env)).map f))) := by
  rcases hp : chunkPlanner cfg.budget cfg.bitrate cfg.margin with _ | ms
  · rw [cfgNumChunks, hp] at hn
    simp at hn
  · have hnum : cfgNumChunks cfg env = makeChunksCount env.audioLenMs ms.toNat := by
      rw [cfgNumChunks, hp]
    rw [hnum] at hn hok ⊢
    have hall := chunkLoop_all_ok env cfg.hardLimit f
      (makeChunksCount env.audioLenMs ms.toNat) 0 []
      (fun j h0 hj => hok j (by omega))
    unfold splitAndTranscribe
    rw [hload, hp]
    simp only [hall, List.nil_append]
    have hne : (List.range' 0 (makeChunksCount env.audioLenMs ms.toNat)).map f ≠ [] := by
      simp [List.range'_eq_nil]
      omega
    simp [hne, List.isEmpty_iff, List.range_eq_range']

/-- Witness for all_success_joined: two chunks with texts "Hello" and
"world" produce exactly "Hello world". -/
theorem all_success_joined_witness :
    0 < cfgNumChunks defaultCfg envW ∧
    (splitAndTranscribe defaultCfg envW).2 =
      Outcome.val (some (String.intercalate " "
        ((List.range (cfgNumChunks defaultCfg envW)).map
          (fun i => if i = 0 then "Hello" else "world")))) ∧
    (splitAndTranscribe defaultCfg envW).2 = Outcome.val (some "Hello world") := by
  have h1 : 0 < cfgNumChunks defaultCfg envW := by
    simp only [cfgNumChunks, defaultCfg]
    rw [planner_defaults]
    decide
  refine ⟨h1, all_success_joined defaultCfg envW (fun i => if i = 0 then "Hello" else "world")
    rfl h1 ?_, ?_⟩
  · intro j hj
    have hj2 : j < 2 := by
      simp only [cfgNumChunks, defaultCfg] at hj
      rw [planner_defaults] at hj
      exact hj
    interval_cases j <;> exact ⟨rfl, rfl, by decide, rfl⟩
  · simp only [splitAndTranscribe, defaultCfg]
    rw [planner_defaults]
    decide

/-- Claim C1: the first transcription failure aborts the split-path run:
no chunk with a higher index is exported or submitted, collected
transcripts are discarded, and the run returns the absence signal `none`
rather than an empty or partial transcript. -/
theorem fail_fast_abort (cfg : Config) (env : Env) (k : ℕ)
    (hload : env.loadOk = true)
    (hk : k < cfgNumChunks cfg env)
    (hprev : ∀ j, j < k → env.exportOk j = true ∧ env.sizeRaises j = false ∧
      env.chunkSize j < cfg.hardLimit ∧ (env.transcript j).isSome = true)
    (hek : env.exportOk k = true) (hrk : env.sizeRaises k = false)
    (hsk : env.chunkSize k < cfg.hardLimit) (htk : env.transcript k = none) :
    (splitAndTranscribe cfg env).2 = Outcome.val none ∧
    ∀ j, k < j → Ev.export j ∉ (splitAndTranscribe cfg env).1 ∧
      Ev.transcribe j ∉ (splitAndTranscribe cfg env).1 := by
  rcases hp : chunkPlanner cfg.budget cfg.bitrate cfg.margin with _ | ms
  · rw [cfgNumChunks, hp] at hk
    simp at hk
  · have hnum : cfgNumChunks cfg env = makeChunksCount env.audioLenMs ms.toNat := by
      rw [cfgNumChunks, hp]
    rw [hnum] at hk
    obtain ⟨hflags, hmem⟩ := chunkLoop_fail_fast env cfg.hardLimit k hek hrk hsk htk
      (makeChunksCount env.audioLenMs ms.toNat) 0 [] (Nat.zero_le k) (by omega)
      (fun j h0 hj => hprev j hj)
    have hraised : (chunkLoop env cfg.hardLimit
        (makeChunksCount env.audioLenMs ms.toNat) 0 []).2.2.2 = false := by
      rw [hflags]
    have hallok : (chunkLoop env cfg.hardLimit
        (makeChunksCount env.audioLenMs ms.toNat) 0 []).2.2.1 = false := by
      rw [hflags]
    unfold splitAndTranscribe
    rw [hload, hp]
    simp only [hraised, hallok, Bool.false_eq_true, if_false, if_true, reduceIte]
    refine ⟨rfl, fun j hj => ?_⟩
    obtain ⟨m1, m2⟩ := hmem j hj
    constructor <;> simp [m1, m2]

/-- Witness for fail_fast_abort: a two-chunk run whose second chunk fails
transcription returns `none` and never touches a third chunk. -/
theorem fail_fast_abort_witness :
    1 < cfgNumChunks defaultCfg envF ∧
    (splitAndTranscribe defaultCfg envF).2 = Outcome.val none ∧
    ∀ j, 1 < j → Ev.export j ∉ (splitAndTranscribe defaultCfg envF).1 ∧
      Ev.transcribe j ∉ (splitAndTranscribe defaultCfg envF).1 := by
  have h1 : 1 < cfgNumChunks defaultCfg envF := by
    simp only [cfgNumChunks, defaultCfg]
    rw [planner_defaults]
    decide
  refine ⟨h1, fail_fast_abort defaultCfg envF 1 rfl h1 ?_ rfl rfl (by decide) rfl⟩
  intro j hj
  interval_cases j
  exact ⟨rfl, rfl, by decide, rfl⟩

/-- Claim C7: an exported chunk with on-disk size at or above the hard
limit aborts the split immediately: it is never transcribed, no later chunk
is exported or submitted, and the run returns the absence signal. -/
theorem size_violation_aborts (cfg : Config) (env : Env) (k : ℕ)
    (hload : env.loadOk = true)
    (hk : k < cfgNumChunks cfg env)
    (hprev : ∀ j, j < k → env.exportOk j = true ∧ env.sizeRaises j = false ∧
      env.chunkSize j < cfg.hardLimit ∧ (env.transcript j).isSome = true)
    (hek : env.exportOk k = true) (hrk : env.sizeRaises k = false)
    (hsk : cfg.hardLimit ≤ env.chunkSize k) :
    (splitAndTranscribe cfg env).2 = Outcome.val none ∧
    Ev.transcribe k ∉ (splitAndTranscribe cfg env).1 ∧
    ∀ j, k < j → Ev.export j ∉ (splitAndTranscribe cfg env).1 ∧
      Ev.transcribe j ∉ (splitAndTranscribe cfg env).1 := by
  rcases hp : chunkPlanner cfg.budget cfg.bitrate cfg.margin with _ | ms
  · rw [cfgNumChunks, hp] at hk
    simp at hk
  · have hnum : cfgNumChunks cfg env = makeChunksCount env.audioLenMs ms.toNat := by
      rw [cfgNumChunks, hp]
    rw [hnum] at hk
    obtain ⟨hflags, hkmem, hmem⟩ := chunkLoop_size_violation env cfg.hardLimit k hek hrk hsk
      (makeChunksCount env.audioLenMs ms.toNat) 0 [] (Nat.zero_le k) (by omega)
      (fun j h0 hj => hprev j hj)
    have hraised : (chunkLoop env cfg.hardLimit
        (makeChunksCount env.audioLenMs ms.toNat) 0 []).2.2.2 = false := by
      rw [hflags]
    have hallok : (chunkLoop env cfg.hardLimit
        (makeChunksCount env.audioLenMs ms.toNat) 0 []).2.2.1 = false := by
      rw [hflags]
    unfold splitAndTranscribe
    rw [hload, hp]
    simp only [hraised, hallok, Bool.false_eq_true, if_false, if_true, reduceIte]
    refine ⟨rfl, by simp [hkmem], fun j hj => ?_⟩
    obtain ⟨m1, m2⟩ := hmem j hj
    constructor <;> simp [m1, m2]

/-- Witness for size_violation_aborts: a run whose second exported chunk is
exactly at the 25 MiB limit fails without transcribing it. -/
theorem size_violation_aborts_witness :
    1 < cfgNumChunks defaultCfg envV ∧
    (splitAndTranscribe defaultCfg envV).2 = Outcome.val none ∧
    Ev.transcribe 1 ∉ (splitAndTranscribe defaultCfg envV).1 ∧
    ∀ j, 1 < j → Ev.export j ∉ (splitAndTranscribe defaultCfg envV).1 ∧
      Ev.transcribe j ∉ (splitAndTranscribe defaultCfg envV).1 := by
  have h1 : 1 < cfgNumChunks defaultCfg envV := by
    simp only [cfgNumChunks, defaultCfg]
    rw [planner_defaults]
    decide
  refine ⟨h1, size_violation_aborts defaultCfg envV 1 rfl h1 ?_ rfl rfl (by decide)⟩
  intro j hj
  interval_cases j
  exact ⟨rfl, rfl, by decide, rfl⟩

/-- Claim C2 (amended): on every designed exit path — load failure, planner
rejection, export failure, size violation, transcription failure, and
normal completion, i.e. on every run in which no step raises an unexpected
exception — the per-run scratch directory is removed before the
orchestration returns, and the run does not propagate an exception. -/
theorem scratch_dir_removed (cfg : Config) (env : Env)
    (h : ∀ i, env.sizeRaises i = false) :
    Ev.removeDir ∈ (splitAndTranscribe cfg env).1 ∧
    (splitAndTranscribe cfg env).2 ≠ Outcome.exn := by
  unfold splitAndTranscribe
  rcases hl : env.loadOk with _ | _
  · exact ⟨by simp, by simp⟩
  · rcases hp : chunkPlanner cfg.budget cfg.bitrate cfg.margin with _ | ms
    · exact ⟨by simp, by simp⟩
    · have hnr := chunkLoop_not_raised env cfg.hardLimit h
        (makeChunksCount env.audioLenMs ms.toNat) 0 []
      simp only [hnr, Bool.false_eq_true, if_false, reduceIte]
      rcases hok : (chunkLoop env cfg.hardLimit
          (makeChunksCount env.audioLenMs ms.toNat) 0 []).2.2.1 with _ | _ <;>
        exact ⟨by simp, by simp⟩

/-- Witness for scratch_dir_removed: on a concrete successful two-chunk run
the trace contains the scratch-directory removal. -/
theorem scratch_dir_removed_witness :
    Ev.removeDir ∈ (splitAndTranscribe defaultCfg envW).1 ∧
    (splitAndTranscribe defaultCfg envW).2 ≠ Outcome.exn :=
  scratch_dir_removed defaultCfg envW (fun _ => rfl)

/-- Counterexample for claim C2 as stated: the cleanup is NOT guaranteed
when a prior step raises an unexpected condition — the function body has no
try/finally, so when the `os.path.getsize` call on the first chunk raises,
the exception propagates and the scratch directory is never removed. -/
theorem scratch_dir_not_removed_on_exception :
    (splitAndTranscribe defaultCfg envRaise).2 = Outcome.exn ∧
    Ev.removeDir ∉ (splitAndTranscribe defaultCfg envRaise).1 := by
  have h : splitAndTranscribe defaultCfg envRaise =
      ([Ev.mkDir, Ev.export 0], Outcome.exn) := by
    simp only [splitAndTranscribe, defaultCfg]
    rw [planner_defaults]
    decide
  rw [h]
  exact ⟨rfl, by decide⟩

/-- Claim C8: whenever a chunk's transcription call resolves (with success
or failure), the very next event in the run's trace is the deletion of that
chunk's temporary file, and no later chunk's export or transcription
occurs before that deletion. -/
theorem chunk_file_removed_immediately (cfg : Config) (env : Env) (a : ℕ)
    (ha : Ev.transcribe a ∈ (splitAndTranscribe cfg env).1) :
    ∃ p q, (splitAndTranscribe cfg env).1 =
        p ++ Ev.transcribe a :: Ev.removeChunk a :: q ∧
      ∀ j, a < j → Ev.export j ∉ p ∧ Ev.transcribe j ∉ p := by
  rcases splitAndTranscribe_trace_cases cfg env with hsh | hsh | hsh
  · rw [hsh] at ha
    simp at ha
  · rw [hsh] at ha ⊢
    have hmem : Ev.transcribe a ∈ (chunkLoop env cfg.hardLimit
        (cfgNumChunks cfg env) 0 []).1 := by
      simpa using ha
    obtain ⟨p, q, hpq, hcond⟩ := chunkLoop_remove_immediately env cfg.hardLimit
      (cfgNumChunks cfg env) 0 [] a hmem
    refine ⟨Ev.mkDir :: p, q, by simp [hpq], fun j hj => ?_⟩
    obtain ⟨c1, c2⟩ := hcond j hj
    constructor <;> simp [c1, c2]
  · rw [hsh] at ha ⊢
    have hmem : Ev.transcribe a ∈ (chunkLoop env cfg.hardLimit
        (cfgNumChunks cfg env) 0 []).1 := by
      rcases (by simpa using ha : Ev.transcribe a ∈ (chunkLoop env cfg.hardLimit
          (cfgNumChunks cfg env) 0 []).1 ∨ Ev.transcribe a ∈ ([Ev.removeDir] : List Ev))
        with h1 | h1
      · exact h1
      · simp at h1
    obtain ⟨p, q, hpq, hcond⟩ := chunkLoop_remove_immediately env cfg.hardLimit
      (cfgNumChunks cfg env) 0 [] a hmem
    refine ⟨Ev.mkDir :: p, q ++ [Ev.removeDir], ?_, fun j hj => ?_⟩
    · simp [hpq, List.append_assoc]
    · obtain ⟨c1, c2⟩ := hcond j hj
      constructor <;> simp [c1, c2]

/-- Witness for chunk_file_removed_immediately: on the concrete two-chunk
run the first transcription event is immediately followed by the first
chunk's deletion. -/
theorem chunk_file_removed_immediately_witness :
    Ev.transcribe 0 ∈ (splitAndTranscribe defaultCfg envW).1 ∧
    ∃ p q, (splitAndTranscribe defaultCfg envW).1 =
        p ++ Ev.transcribe 0 :: Ev.removeChunk 0 :: q ∧
      ∀ j, 0 < j → Ev.export j ∉ p ∧ Ev.transcribe j ∉ p := by
  have hm : Ev.transcribe 0 ∈ (splitAndTranscribe defaultCfg envW).1 := by
    simp only [splitAndTranscribe, defaultCfg]
    rw [planner_defaults]
    decide
  exact ⟨hm, chunk_file_removed_immediately defaultCfg envW 0 hm⟩

end YT
